import Mathlib

/-!
# nRF5 device-layer configuration keys and logging shim

A shallow embedding of

* `src/adaptations/device-layer/include/Weave/DeviceLayer/nRF5/nRF5Config.h`
  (key packing, the well-known key table, the FDS limits, `FDSWords`), and
* `src/adaptations/device-layer/nRF5/Logging.cpp` (`Log`, `LwIPLog`).

The configuration store operations that the header declares without a body
are modelled from the specification; every such definition says so.

Machine integers are natural numbers reduced explicitly: `uint16_t` values are
taken modulo `2 ^ 16`, `uint32_t` values modulo `2 ^ 32`, and `size_t` values
modulo `2 ^ sizeBits` where `sizeBits` is the width of `size_t` on the target
(32 on the nRF52).
-/

namespace NRF5Config

/-! ## Key packing (nRF5Config.h, lines 39-42 and 168-182) -/

/-- Packs a key, `NRF5ConfigKey(fileId, recordId)`:
`static_cast<uint32_t>(fileId) << 16 | recordId`.  The shift is carried out on
a `uint32_t`, hence the reduction modulo `2 ^ 32`. -/
def NRF5ConfigKey (fileId recordId : Nat) : Nat :=
  ((fileId <<< 16) % 2 ^ 32) ||| recordId

/-- File id of a key, `GetFileId(key)`: `static_cast<uint16_t>(key >> 16)`. -/
def GetFileId (key : Nat) : Nat :=
  (key >>> 16) % 2 ^ 16

/-- Record key of a key, `GetRecordKey(key)`: `static_cast<uint16_t>(key)`. -/
def GetRecordKey (key : Nat) : Nat :=
  key % 2 ^ 16

/-! ## Limits imposed by the Nordic SDK (lines 61-65) -/

def kFDSFileIdMin : Nat := 0x0000
def kFDSFileIdMax : Nat := 0xBFFF
def kFDSRecordKeyMin : Nat := 0x0001
def kFDSRecordKeyMax : Nat := 0xBFFF

/-! ## FDS file ids used by the device layer (lines 67-73) -/

/-- File holding values set at manufacturing time; retained during factory reset. -/
def kFileId_WeaveFactory : Nat := 0x235A
/-- File holding dynamic config values set at runtime; cleared during factory reset. -/
def kFileId_WeaveConfig : Nat := 0x235B
/-- File holding dynamic counter values set at runtime; retained during factory reset. -/
def kFileId_WeaveCounter : Nat := 0x235C

/-! ## Well-known keys (lines 78-92) -/

def kConfigKey_SerialNum : Nat := NRF5ConfigKey kFileId_WeaveFactory 0x0001
def kConfigKey_DeviceId : Nat := NRF5ConfigKey kFileId_WeaveFactory 0x0002
def kConfigKey_DeviceCert : Nat := NRF5ConfigKey kFileId_WeaveFactory 0x0003
def kConfigKey_DevicePrivateKey : Nat := NRF5ConfigKey kFileId_WeaveFactory 0x0004
def kConfigKey_ManufacturingDate : Nat := NRF5ConfigKey kFileId_WeaveFactory 0x0005
def kConfigKey_PairingCode : Nat := NRF5ConfigKey kFileId_WeaveFactory 0x0006
def kConfigKey_FabricId : Nat := NRF5ConfigKey kFileId_WeaveConfig 0x0007
def kConfigKey_ServiceConfig : Nat := NRF5ConfigKey kFileId_WeaveConfig 0x0008
def kConfigKey_PairedAccountId : Nat := NRF5ConfigKey kFileId_WeaveConfig 0x0009
def kConfigKey_ServiceId : Nat := NRF5ConfigKey kFileId_WeaveConfig 0x000A
def kConfigKey_FabricSecret : Nat := NRF5ConfigKey kFileId_WeaveConfig 0x000B
def kConfigKey_LastUsedEpochKeyId : Nat := NRF5ConfigKey kFileId_WeaveConfig 0x000C
def kConfigKey_FailSafeArmed : Nat := NRF5ConfigKey kFileId_WeaveConfig 0x000D
def kConfigKey_GroupKey : Nat := NRF5ConfigKey kFileId_WeaveConfig 0x000E

/-- The six keys the header declares in the factory file, in declaration order. -/
def factoryKeys : List Nat :=
  [kConfigKey_SerialNum, kConfigKey_DeviceId, kConfigKey_DeviceCert,
   kConfigKey_DevicePrivateKey, kConfigKey_ManufacturingDate, kConfigKey_PairingCode]

/-- The eight keys the header declares in the runtime config file, in declaration order. -/
def configKeys : List Nat :=
  [kConfigKey_FabricId, kConfigKey_ServiceConfig, kConfigKey_PairedAccountId,
   kConfigKey_ServiceId, kConfigKey_FabricSecret, kConfigKey_LastUsedEpochKeyId,
   kConfigKey_FailSafeArmed, kConfigKey_GroupKey]

/-- All fourteen well-known keys. -/
def wellKnownKeys : List Nat := factoryKeys ++ configKeys

/-! ## Persisted counter record keys (lines 94-99) -/

def kPersistedCounterRecordKeyBase : Nat := kFDSRecordKeyMin
def kPersistedCounterRecordKeyMax : Nat := kFDSRecordKeyMax

/-! ## Word counts (lines 151 and 184-190) -/

def kFDSWordSize : Nat := 4

/-- Word count `FDSWords(s)`: `(s + (kFDSWordSize - 1)) / kFDSWordSize` returned as a
`uint16_t`.  The sum and the quotient are computed in `size_t` (width
`sizeBits`), and the return statement narrows the quotient to 16 bits. -/
def FDSWords (sizeBits : Nat) (s : Nat) : Nat :=
  (((s + (kFDSWordSize - 1)) % 2 ^ sizeBits) / kFDSWordSize) % 2 ^ 16

/-! ## Configuration store

The header only declares `ReadConfigValue`, `WriteConfigValue`,
`ConfigValueExists`, `FactoryResetConfig`, `OpenRecord`, `ForEachRecord`,
`DoAsyncFDSOp` and `MapFDSError`; their bodies and the FDS library are in
other files.  The definitions of this section follow the component design of
the specification (KeyCodec, AsyncOpBridge, RecordLocator, ConfigStore,
ErrorMapper) over an in-memory flash. -/

/-- Modelled from the spec: a physical record of the flash library (its type
`fds_flash_record_t` is declared in `fds.h`): the namespace (file id), the
record id (record key) and the payload bytes. -/
structure FlashRecord where
  fileId : Nat
  recordKey : Nat
  data : List Nat
  deriving DecidableEq, Repr

/-- Modelled from the spec: the result code (`ret_code_t`) a completion
callback carries; only success and out-of-space are told apart from the other
vendor codes. -/
inductive FdsResult
  | success
  | noSpace
  | other (code : Nat)
  deriving DecidableEq, Repr

/-- Modelled from the spec: the error taxonomy of the store (`WEAVE_ERROR`
values, declared outside the header). -/
inductive ConfigError
  | NotFound
  | BufferTooSmall (requiredLength : Nat)
  | OutOfSpace
  | NotInitialized
  | Busy
  | Corrupted
  | Internal (code : Nat)
  deriving DecidableEq, Repr

/-- Modelled from the spec: the flash record library as an in-memory fake.
`records` are the valid records in enumeration order; `completions` are the
result codes the library delivers to the next completion callbacks, one per
asynchronous call (once the list is used up every call succeeds). -/
structure Flash where
  records : List FlashRecord
  completions : List FdsResult
  deriving DecidableEq, Repr

/-- Modelled from the spec: `MapFDSError`, the ErrorMapper: out-of-space is
`OutOfSpace`, every other failure code is surfaced as `Internal(code)`;
`none` stands for `WEAVE_NO_ERROR`. -/
def MapFDSError : FdsResult → Option ConfigError
  | FdsResult.success => none
  | FdsResult.noSpace => some ConfigError.OutOfSpace
  | FdsResult.other code => some (ConfigError.Internal code)

/-- Modelled from the spec: the requests of `struct FDSAsyncOp` that the store
operations below issue (add, update by descriptor, delete by descriptor,
delete namespace, compact), with the fields each one uses.  A record
descriptor is the position of the record in the enumeration order. -/
inductive FDSAsyncOp
  | kAddRecord (FileId RecordKey : Nat) (RecordData : List Nat)
  | kUpdateRecord (RecordDesc : Nat) (RecordData : List Nat)
  | kDeleteRecord (RecordDesc : Nat)
  | kDeleteFile (FileId : Nat)
  | kGC
  deriving DecidableEq, Repr

/-- Modelled from the spec: update by descriptor replaces the payload of the
record at that position, in place. -/
def updateAt : Nat → List Nat → List FlashRecord → List FlashRecord
  | _, _, [] => []
  | 0, d, r :: rs => { r with data := d } :: rs
  | n + 1, d, r :: rs => r :: updateAt n d rs

/-- Modelled from the spec: effect of a request that completes successfully.
Compaction reclaims space only and leaves the valid records alone. -/
def applyOp : FDSAsyncOp → List FlashRecord → List FlashRecord
  | FDSAsyncOp.kAddRecord f k d, recs => recs ++ [⟨f, k, d⟩]
  | FDSAsyncOp.kUpdateRecord desc d, recs => updateAt desc d recs
  | FDSAsyncOp.kDeleteRecord desc, recs => recs.eraseIdx desc
  | FDSAsyncOp.kDeleteFile f, recs => recs.filter (fun r => decide (r.fileId ≠ f))
  | FDSAsyncOp.kGC, recs => recs

/-- Modelled from the spec: `DoAsyncFDSOp`, the AsyncOpBridge `execute`.  The
request is issued, the caller waits for the completion callback and the
translated result is returned.  One caller issues requests one after the
other, so the single slot is free at every call and the wait is collapsed
into taking the next completion code.  A request that fails leaves the
records as they were. -/
def DoAsyncFDSOp (op : FDSAsyncOp) (fl : Flash) : Option ConfigError × Flash :=
  match fl.completions with
  | [] => (none, ⟨applyOp op fl.records, []⟩)
  | c :: cs =>
    match MapFDSError c with
    | none => (none, ⟨applyOp op fl.records, cs⟩)
    | some e => (some e, ⟨fl.records, cs⟩)

/-- Modelled from the spec: the filter of the record enumeration (`iterate`
of the flash library): namespace and record id both match. -/
def recordMatches (fileId recordKey : Nat) (r : FlashRecord) : Bool :=
  r.fileId == fileId && r.recordKey == recordKey

/-- Modelled from the spec: the loop of `ForEachRecord` (RecordLocator
`findAll`).  `rest` are the records the cursor has not reached yet and `pos`
is the descriptor of the first of them.  The visitor sees its own state (what
the `std::function` captured) and the record, and may fail, or ask for the
record to be deleted; a deletion is carried out through `DoAsyncFDSOp` before
the iteration continues. -/
def forEachFrom {σ : Type} (fileId recordKey : Nat)
    (funct : σ → FlashRecord → Except ConfigError (Bool × σ)) :
    List FlashRecord → Nat → Flash → σ → Option ConfigError × σ × Flash
  | [], _, fl, st => (none, st, fl)
  | r :: rest, pos, fl, st =>
    if recordMatches fileId recordKey r then
      match funct st r with
      | Except.error e => (some e, st, fl)
      | Except.ok (true, st1) =>
        match DoAsyncFDSOp (FDSAsyncOp.kDeleteRecord pos) fl with
        | (some e, fl1) => (some e, st1, fl1)
        | (none, fl1) => forEachFrom fileId recordKey funct rest pos fl1 st1
      | Except.ok (false, st1) => forEachFrom fileId recordKey funct rest (pos + 1) fl st1
    else forEachFrom fileId recordKey funct rest (pos + 1) fl st

/-- Modelled from the spec: `ForEachRecord(fileId, recordKey, funct)`. -/
def ForEachRecord {σ : Type} (fileId recordKey : Nat)
    (funct : σ → FlashRecord → Except ConfigError (Bool × σ)) (st : σ) (fl : Flash) :
    Option ConfigError × σ × Flash :=
  forEachFrom fileId recordKey funct fl.records 0 fl st

/-- Modelled from the spec: the search behind `OpenRecord`: position and
contents of the first record that matches the filter. -/
def findRecord (fileId recordKey : Nat) : List FlashRecord → Option (Nat × FlashRecord)
  | [] => none
  | r :: rs =>
    if recordMatches fileId recordKey r then some (0, r)
    else (findRecord fileId recordKey rs).map (fun x => (x.1 + 1, x.2))

/-- Modelled from the spec: `OpenRecord(key, recDesc, rec)` (RecordLocator
`findOne`): the first match, `NotFound` when there is none. -/
def OpenRecord (key : Nat) (fl : Flash) : Except ConfigError (Nat × FlashRecord) :=
  match findRecord (GetFileId key) (GetRecordKey key) fl.records with
  | none => Except.error ConfigError.NotFound
  | some x => Except.ok x

/-- Modelled from the spec: encoding and decoding of a value type, the
parameter of the typed accessors. -/
structure Codec (α : Type) where
  encode : α → List Nat
  decode : List Nat → Option α

/-- Modelled from the spec: the payload buffer of a write: the encoded bytes
padded with zero bytes, `FDSWords` words long. -/
def storedBytes (bytes : List Nat) : List Nat :=
  (bytes ++ List.replicate (kFDSWordSize - 1) 0).take (kFDSWordSize * FDSWords 32 bytes.length)

/-- Modelled from the spec: one add or update with the out-of-space recovery of
Write step 4: on `OutOfSpace` a compaction is run and the request is issued
once more; the result of the second attempt is final. -/
def writeWithRetry (op : FDSAsyncOp) (fl : Flash) : Option ConfigError × Flash :=
  match DoAsyncFDSOp op fl with
  | (some ConfigError.OutOfSpace, fl1) =>
    match DoAsyncFDSOp FDSAsyncOp.kGC fl1 with
    | (some e, fl2) => (some e, fl2)
    | (none, fl2) => DoAsyncFDSOp op fl2
  | res => res

/-- Modelled from the spec: the visitor of Exists and of Write step 1, which
only counts the records it is shown. -/
def countVisitor (n : Nat) (_ : FlashRecord) : Except ConfigError (Bool × Nat) :=
  Except.ok (false, n + 1)

/-- Modelled from the spec: the visitor of Write step 3, which keeps the first
record it is shown and asks for every later one to be deleted. -/
def keepFirstVisitor (n : Nat) (_ : FlashRecord) : Except ConfigError (Bool × Nat) :=
  Except.ok (decide (1 ≤ n), n + 1)

/-- Modelled from the spec: the algorithm the `WriteConfigValue` overloads
share (ConfigStore Write, steps 1 to 4), on an encoded payload.  The matches
are counted; with none a record is added; otherwise the first match is
updated in place and, when there were more, the others are deleted. -/
def WriteRecord (key : Nat) (payload : List Nat) (fl : Flash) : Option ConfigError × Flash :=
  match ForEachRecord (GetFileId key) (GetRecordKey key) countVisitor 0 fl with
  | (some e, _, fl1) => (some e, fl1)
  | (none, 0, fl1) =>
    writeWithRetry (FDSAsyncOp.kAddRecord (GetFileId key) (GetRecordKey key) payload) fl1
  | (none, count + 1, fl1) =>
    match OpenRecord key fl1 with
    | Except.error e => (some e, fl1)
    | Except.ok (recDesc, _) =>
      match writeWithRetry (FDSAsyncOp.kUpdateRecord recDesc payload) fl1 with
      | (some e, fl2) => (some e, fl2)
      | (none, fl2) =>
        if count = 0 then (none, fl2)
        else
          match ForEachRecord (GetFileId key) (GetRecordKey key) keepFirstVisitor 0 fl2 with
          | (res, _, fl3) => (res, fl3)

/-- Modelled from the spec: `WriteConfigValue(key, val)` for a value type with
the given codec. -/
def WriteConfigValue {α : Type} (codec : Codec α) (key : Nat) (val : α) (fl : Flash) :
    Option ConfigError × Flash :=
  WriteRecord key (storedBytes (codec.encode val)) fl

/-- Modelled from the spec: `ReadConfigValue(key, val)` (ConfigStore Read):
the first match is opened and its bytes are decoded; bytes that do not decode
are reported as `Corrupted`. -/
def ReadConfigValue {α : Type} (codec : Codec α) (key : Nat) (fl : Flash) :
    Except ConfigError α :=
  match OpenRecord key fl with
  | Except.error e => Except.error e
  | Except.ok (_, rec) =>
    match codec.decode rec.data with
    | none => Except.error ConfigError.Corrupted
    | some v => Except.ok v

/-- Number of physical records stored under a key. -/
def recordCount (key : Nat) (fl : Flash) : Nat :=
  (fl.records.filter (recordMatches (GetFileId key) (GetRecordKey key))).length

/-- Little-endian bytes of a number, `width` bytes long. -/
def leBytes : Nat → Nat → List Nat
  | 0, _ => []
  | width + 1, n => n % 256 :: leBytes width (n / 256)

/-- Number held by little-endian bytes. -/
def ofLeBytes : List Nat → Nat
  | [] => 0
  | b :: bs => b + 256 * ofLeBytes bs

/-- Modelled from the spec: encode and decode for `uint32_t` values.  The
specification leaves the byte layout open; four bytes, least significant
first, are used. -/
def u32Codec : Codec Nat where
  encode := fun n => leBytes 4 n
  decode := fun bytes => if bytes.length = 4 then some (ofLeBytes bytes) else none

/-- Modelled from the spec: encode and decode for `uint64_t` values.  The
specification leaves the byte layout open; eight bytes, least significant
first, are used. -/
def u64Codec : Codec Nat where
  encode := fun n => leBytes 8 n
  decode := fun bytes => if bytes.length = 8 then some (ofLeBytes bytes) else none

/-- Modelled from the spec: encode and decode for `bool` values.  The
specification leaves the byte layout open; one byte, 1 or 0, padded to one
word, is used, and any non-zero first byte reads as true. -/
def boolCodec : Codec Bool where
  encode := fun b => [if b then 1 else 0]
  decode := fun bytes => if bytes.length = 4 then some (decide (bytes.headD 0 ≠ 0)) else none

end NRF5Config

namespace Logging

/-! ## Memory and libc helpers used by Logging.cpp

The stack region that starts at `formattedMsg` is a map from byte offsets to
bytes.  Offsets `0 .. 255` are the `char formattedMsg[256]` array; larger
offsets are whatever lies behind the array.  The initial contents are
arbitrary (the array is not initialised by the source). -/

abbrev Mem := Nat → Nat

/-- Size of the array, `sizeof(formattedMsg)`. -/
def kFormattedMsgSize : Nat := 256

/-- One byte store `p[i] = v`. -/
def writeByte (mem : Mem) (i v : Nat) : Mem :=
  fun j => if j = i then v else mem j

/-- Consecutive byte stores starting at offset `off` (`memcpy`). -/
def writeBytes (mem : Mem) (off : Nat) : List Nat → Mem
  | [] => mem
  | b :: bs => writeBytes (writeByte mem off b) (off + 1) bs

/-- The bytes of the C string starting at `start`: everything before the first
zero byte, looking at no more than `avail` bytes. -/
def cString (mem : Mem) (start : Nat) : Nat → List Nat
  | 0 => []
  | avail + 1 =>
    if mem start = 0 then [] else mem start :: cString mem (start + 1) avail

/-- Length `strlen(p)` for a string held in an array with `avail` bytes from `p` on. -/
def strlen (mem : Mem) (start avail : Nat) : Nat :=
  (cString mem start avail).length

/-- Whitespace test `isspace` in the C locale: space (32), tab, line feed,
vertical tab, form feed and carriage return (9 to 13). -/
def isspace (c : Nat) : Bool :=
  c == 32 || (9 ≤ c && c ≤ 13)

/-- Formatter `vsnprintf(buf + off, size, fmt, args)` where `text` is the complete
expansion of the format: at most `size - 1` bytes of `text` are stored,
followed by a terminator; nothing is stored when `size` is 0.  The value
returned is the length the complete expansion has. -/
def vsnprintf (mem : Mem) (off size : Nat) (text : List Nat) : Mem × Nat :=
  if size = 0 then (mem, text.length)
  else (writeBytes mem off (text.take (size - 1) ++ [0]), text.length)

/-! ## Environment of the logging shim

Declarations that Logging.cpp uses and that live in headers outside the two
source files are taken as parameters. -/

structure LogEnv where
  /-- Value of the preprocessor flag `NRF_LOG_ENABLED`. -/
  NRF_LOG_ENABLED : Bool
  /-- Weave `IsCategoryEnabled(category)`. -/
  IsCategoryEnabled : Nat → Bool
  /-- The module id `kLogModule_DeviceLayer`. -/
  kLogModule_DeviceLayer : Nat
  /-- Text stored by `::nl::Weave::Logging::GetModuleName` for a module id
  (without its terminator). -/
  weaveModuleName : Nat → List Nat
  /-- The category `kLogCategory_Error`. -/
  kLogCategory_Error : Nat
  /-- The category `kLogCategory_Detail`. -/
  kLogCategory_Detail : Nat

/-- Severity macro used to hand a message to the nRF logger. -/
inductive NrfLevel
  | error
  | info
  | debug
  deriving DecidableEq, Repr

/-- Observable effects of the logging functions, in program order. -/
inductive LogEvent
  /-- `NRF_LOG_<level>("%s", NRF_LOG_PUSH(formattedMsg))` with the string then held
  in `formattedMsg`. -/
  | nrfLog (level : NrfLevel) (text : List Nat)
  /-- A call of `DeviceLayer::OnLogOutput()`. -/
  | onLogOutput
  deriving DecidableEq, Repr

/-- The file-local `GetModuleName(buf, module)` (lines 43-53): `memcpy(buf, "DL", 3)`
for the device layer module, the Weave function otherwise. -/
def GetModuleName (env : LogEnv) (mem : Mem) (buf module : Nat) : Mem :=
  if module = env.kLogModule_DeviceLayer then
    writeBytes mem buf [68, 76, 0]
  else
    writeBytes mem buf (env.weaveModuleName module ++ [0])

/-- The `switch (category)` of `Log` (lines 114-126). -/
def levelOfCategory (env : LogEnv) (category : Nat) : NrfLevel :=
  if category = env.kLogCategory_Error then NrfLevel.error
  else if category = env.kLogCategory_Detail then NrfLevel.debug
  else NrfLevel.info

/-- Contents of `formattedMsg` when `Log` reaches the `switch` (lines 97-111).
The `static_assert` on `maxPrefixLen` keeps the prefix shorter than the array,
so the size passed to `vsnprintf` does not wrap. -/
def LogBuffer (env : LogEnv) (stack : Mem) (module : Nat) (text : List Nat) : Mem :=
  let formattedMsg := writeByte stack 0 91
  let formattedMsg := GetModuleName env formattedMsg 1 module
  let formattedMsgLen := strlen formattedMsg 0 kFormattedMsgSize
  let formattedMsg := writeByte formattedMsg formattedMsgLen 93
  let formattedMsgLen := formattedMsgLen + 1
  let formattedMsg := writeByte formattedMsg formattedMsgLen 32
  let formattedMsgLen := formattedMsgLen + 1
  (vsnprintf formattedMsg formattedMsgLen (kFormattedMsgSize - formattedMsgLen) text).1

/-- The function `Log(module, category, msg, ...)` (lines 83-136).  `text` is the expansion
of `msg` with its arguments; the result is the sequence of observable
effects of the call. -/
def Log (env : LogEnv) (stack : Mem) (module category : Nat) (text : List Nat) :
    List LogEvent :=
  if env.NRF_LOG_ENABLED then
    if env.IsCategoryEnabled category then
      let formattedMsg := LogBuffer env stack module text
      [LogEvent.nrfLog (levelOfCategory env category)
          (cString formattedMsg 0 kFormattedMsgSize),
        LogEvent.onLogOutput]
    else []
  else []

/-! ## LwIPLog (lines 152-181) -/

/-- State of the whitespace trimming loop, with the offsets it has read and
written so far (relative to `formattedMsg`). -/
structure TrimState where
  mem : Mem
  len : Nat
  reads : List Nat
  writes : List Nat

/-- The loop `while (len > 0 && isspace(formattedMsg[len-1])) { len--; formattedMsg[len] = 0; }`.
The last argument is `len`, which decreases in every iteration. -/
def trimLoop (mem : Mem) (reads writes : List Nat) : Nat → TrimState
  | 0 => ⟨mem, 0, reads, writes⟩
  | n + 1 =>
    if isspace (mem n) then
      trimLoop (writeByte mem n 0) (reads ++ [n]) (writes ++ [n]) n
    else
      ⟨mem, n + 1, reads ++ [n], writes⟩

/-- What a call of `LwIPLog` does: its observable effects and the offsets of
`formattedMsg` the trimming loop touched. -/
structure LwIPLogRun where
  events : List LogEvent
  reads : List Nat
  writes : List Nat
  stack : Mem

/-- The function `LwIPLog(msg, ...)`; `text` is the expansion of `msg` with its arguments. -/
def LwIPLog (env : LogEnv) (stack : Mem) (text : List Nat) : LwIPLogRun :=
  if env.NRF_LOG_ENABLED then
    let r := vsnprintf stack 0 kFormattedMsgSize text
    let t := trimLoop r.1 [] [] r.2
    ⟨[LogEvent.nrfLog NrfLevel.debug (cString t.mem 0 kFormattedMsgSize),
        LogEvent.onLogOutput],
      t.reads, t.writes, t.mem⟩
  else ⟨[], [], [], stack⟩

/-- The bytes of the log prefix of the device layer module: `[`, `D`, `L`, `]`
and a space. -/
def kDeviceLayerPrefix : List Nat := [91, 68, 76, 93, 32]

/-- A concrete environment for evaluating the definitions: categories up to 2
are enabled, module 31 stands for the device layer, other modules are named
`XY`. -/
def demoEnv : LogEnv where
  NRF_LOG_ENABLED := true
  IsCategoryEnabled := fun c => decide (c ≤ 2)
  kLogModule_DeviceLayer := 31
  weaveModuleName := fun _ => [88, 89]
  kLogCategory_Error := 1
  kLogCategory_Detail := 3

end Logging

namespace NRF5Config

/-! ## Theorems: key codec -/

theorem NRF5ConfigKey_eq (fileId recordId : Nat) (hf : fileId < 2 ^ 16)
    (hr : recordId < 2 ^ 16) :
    NRF5ConfigKey fileId recordId = fileId * 2 ^ 16 + recordId := by
  unfold NRF5ConfigKey
  have h1 : fileId <<< 16 < 2 ^ 32 := by
    rw [Nat.shiftLeft_eq]; omega
  rw [Nat.mod_eq_of_lt h1, Nat.shiftLeft_eq, Nat.mul_comm fileId (2 ^ 16),
    ← Nat.mul_add_lt_is_or hr fileId]

/-- C1: for 16-bit `fileId` and `recordId`, unpacking the packed key gives back
both halves, and two 16-bit pairs with the same packed key are the same pair. -/
theorem key_roundtrip (fileId recordId : Nat) (hf : fileId < 2 ^ 16)
    (hr : recordId < 2 ^ 16) :
    (GetFileId (NRF5ConfigKey fileId recordId) = fileId ∧
      GetRecordKey (NRF5ConfigKey fileId recordId) = recordId) ∧
    ∀ fileId2 recordId2 : Nat, fileId2 < 2 ^ 16 → recordId2 < 2 ^ 16 →
      NRF5ConfigKey fileId recordId = NRF5ConfigKey fileId2 recordId2 →
      fileId = fileId2 ∧ recordId = recordId2 := by
  refine ⟨⟨?_, ?_⟩, ?_⟩
  · rw [NRF5ConfigKey_eq _ _ hf hr, GetFileId, Nat.shiftRight_eq_div_pow]
    omega
  · rw [NRF5ConfigKey_eq _ _ hf hr, GetRecordKey]
    omega
  · intro f2 r2 hf2 hr2 h
    rw [NRF5ConfigKey_eq _ _ hf hr, NRF5ConfigKey_eq _ _ hf2 hr2] at h
    omega

/-- Instance of the round trip at the key of the group key item. -/
theorem key_roundtrip_witness :
    (GetFileId (NRF5ConfigKey 0x235B 0x000E) = 0x235B ∧
      GetRecordKey (NRF5ConfigKey 0x235B 0x000E) = 0x000E) ∧
    ∀ fileId2 recordId2 : Nat, fileId2 < 2 ^ 16 → recordId2 < 2 ^ 16 →
      NRF5ConfigKey 0x235B 0x000E = NRF5ConfigKey fileId2 recordId2 →
      0x235B = fileId2 ∧ 0x000E = recordId2 :=
  key_roundtrip 0x235B 0x000E (by decide) (by decide)

/-- C3: the six factory keys have file id `kFileId_WeaveFactory`, the eight
runtime keys have file id `kFileId_WeaveConfig`, and none of the fourteen has
file id `kFileId_WeaveCounter`. -/
theorem wellKnownKeys_fileId :
    (GetFileId kConfigKey_SerialNum = kFileId_WeaveFactory ∧
      GetFileId kConfigKey_DeviceId = kFileId_WeaveFactory ∧
      GetFileId kConfigKey_DeviceCert = kFileId_WeaveFactory ∧
      GetFileId kConfigKey_DevicePrivateKey = kFileId_WeaveFactory ∧
      GetFileId kConfigKey_ManufacturingDate = kFileId_WeaveFactory ∧
      GetFileId kConfigKey_PairingCode = kFileId_WeaveFactory) ∧
    (GetFileId kConfigKey_FabricId = kFileId_WeaveConfig ∧
      GetFileId kConfigKey_ServiceConfig = kFileId_WeaveConfig ∧
      GetFileId kConfigKey_PairedAccountId = kFileId_WeaveConfig ∧
      GetFileId kConfigKey_ServiceId = kFileId_WeaveConfig ∧
      GetFileId kConfigKey_FabricSecret = kFileId_WeaveConfig ∧
      GetFileId kConfigKey_LastUsedEpochKeyId = kFileId_WeaveConfig ∧
      GetFileId kConfigKey_FailSafeArmed = kFileId_WeaveConfig ∧
      GetFileId kConfigKey_GroupKey = kFileId_WeaveConfig) ∧
    (wellKnownKeys.length = 14 ∧
      ∀ k ∈ wellKnownKeys, GetFileId k ≠ kFileId_WeaveCounter) := by
  decide

/-- C4: every well-known key has its file id in `[kFDSFileIdMin, kFDSFileIdMax]`
and its record key in `[kFDSRecordKeyMin, kFDSRecordKeyMax]`; the three file
ids lie in the file id range; the persisted-counter record key range lies in
the record key range. -/
theorem declared_keys_in_range :
    (∀ k ∈ wellKnownKeys,
      (kFDSFileIdMin ≤ GetFileId k ∧ GetFileId k ≤ kFDSFileIdMax) ∧
      (kFDSRecordKeyMin ≤ GetRecordKey k ∧ GetRecordKey k ≤ kFDSRecordKeyMax)) ∧
    (∀ f ∈ [kFileId_WeaveFactory, kFileId_WeaveConfig, kFileId_WeaveCounter],
      kFDSFileIdMin ≤ f ∧ f ≤ kFDSFileIdMax) ∧
    (kFDSRecordKeyMin ≤ kPersistedCounterRecordKeyBase ∧
      kPersistedCounterRecordKeyBase ≤ kPersistedCounterRecordKeyMax ∧
      kPersistedCounterRecordKeyMax ≤ kFDSRecordKeyMax) := by
  decide

/-- C9: the fourteen well-known keys are pairwise distinct as key values, and
so are their (file id, record key) pairs. -/
theorem wellKnownKeys_distinct :
    wellKnownKeys.length = 14 ∧
    wellKnownKeys.Pairwise (fun k1 k2 => k1 ≠ k2) ∧
    wellKnownKeys.Pairwise
      (fun k1 k2 => (GetFileId k1, GetRecordKey k1) ≠ (GetFileId k2, GetRecordKey k2)) := by
  decide

/-! ## Theorems: word counts -/

/-- C2 (as stated) fails: on the 32-bit target a length of 262141 bytes needs
65536 words, the 16-bit return value is 0, and 0 words do not hold 262141
bytes. -/
theorem FDSWords_not_ceiling_at_262141 :
    (262141 + 3) / 4 = 65536 ∧ FDSWords 32 262141 = 0 ∧
    ¬ (262141 ≤ kFDSWordSize * FDSWords 32 262141) := by
  decide

/-- C2 (amended): when `size_t` has at least 18 bits, for every byte length
`s ≤ 262140 = 4 * 65535` the value `FDSWords s` is the ceiling of `s / 4`,
that is the least `w` with `s ≤ 4 * w`. -/
theorem FDSWords_ceiling_of_fits (sizeBits s : Nat) (hbits : 18 ≤ sizeBits)
    (hs : s ≤ 262140) :
    FDSWords sizeBits s = (s + 3) / 4 ∧
    s ≤ kFDSWordSize * FDSWords sizeBits s ∧
    ∀ w : Nat, s ≤ kFDSWordSize * w → FDSWords sizeBits s ≤ w := by
  have hpow : 2 ^ 18 ≤ 2 ^ sizeBits := Nat.pow_le_pow_right (by decide) hbits
  unfold FDSWords kFDSWordSize
  generalize 2 ^ sizeBits = m at hpow
  have h1 : (s + (4 - 1)) % m = s + 3 := Nat.mod_eq_of_lt (by omega)
  rw [h1]
  refine ⟨?_, ?_, ?_⟩
  · omega
  · omega
  · intro w hw
    omega

/-- Instance at the largest length that fits, on the 32-bit target. -/
theorem FDSWords_ceiling_of_fits_witness :
    FDSWords 32 262140 = (262140 + 3) / 4 ∧
    262140 ≤ kFDSWordSize * FDSWords 32 262140 ∧
    ∀ w : Nat, 262140 ≤ kFDSWordSize * w → FDSWords 32 262140 ≤ w :=
  FDSWords_ceiling_of_fits 32 262140 (by decide) (by decide)

/-- The bound 262140 is sharp: for a longer `s` the 16-bit result cannot hold
`s` bytes, whatever the width of `size_t`. -/
theorem FDSWords_too_small_of_gt (sizeBits s : Nat) (hs : 262140 < s) :
    kFDSWordSize * FDSWords sizeBits s < s := by
  unfold FDSWords kFDSWordSize
  have h2 : (s + (4 - 1)) % 2 ^ sizeBits / 4 % 2 ^ 16 < 2 ^ 16 := Nat.mod_lt _ (by decide)
  omega

end NRF5Config

namespace Logging

/-! ## Theorems: logging shim -/

theorem writeBytes_apply (bytes : List Nat) (mem : Mem) (off j : Nat) :
    writeBytes mem off bytes j =
      if off ≤ j ∧ j < off + bytes.length then bytes.getD (j - off) 0 else mem j := by
  induction bytes generalizing mem off with
  | nil =>
    have h : ¬ (off ≤ j ∧ j < off + ([] : List Nat).length) := by
      simp only [List.length_nil]; omega
    rw [if_neg h, writeBytes]
  | cons b bs ih =>
    rw [writeBytes, ih]
    by_cases h1 : off + 1 ≤ j ∧ j < off + 1 + bs.length
    · have h2 : off ≤ j ∧ j < off + (b :: bs).length := by
        simp only [List.length_cons]; omega
      rw [if_pos h1, if_pos h2]
      have h3 : j - off = (j - (off + 1)) + 1 := by omega
      rw [h3, List.getD_cons_succ]
    · rw [if_neg h1]
      by_cases h4 : j = off
      · subst h4
        simp [writeByte]
      · have h5 : ¬ (off ≤ j ∧ j < off + (b :: bs).length) := by
          simp only [List.length_cons]; omega
        rw [if_neg h5]
        simp [writeByte, h4]

/-- A zero-terminated run of non-zero bytes in memory reads back as a C string. -/
theorem cString_eq_of_stored (s : List Nat) (mem : Mem) (start avail : Nat)
    (hnz : ∀ c ∈ s, c ≠ 0) (hlen : s.length < avail)
    (hmem : ∀ i, i < s.length → mem (start + i) = s.getD i 0)
    (hterm : mem (start + s.length) = 0) :
    cString mem start avail = s := by
  induction s generalizing start avail with
  | nil =>
    cases avail with
    | zero => rfl
    | succ a =>
      simp only [List.length_nil, Nat.add_zero] at hterm
      simp [cString, hterm]
  | cons c cs ih =>
    cases avail with
    | zero => simp at hlen
    | succ a =>
      have h0 : mem start = c := by
        have := hmem 0 (by simp)
        simpa using this
      have hc : c ≠ 0 := hnz c (by simp)
      rw [cString, h0, if_neg hc]
      congr 1
      apply ih
      · intro d hd
        exact hnz d (by simp [hd])
      · simp only [List.length_cons] at hlen
        omega
      · intro i hi
        have := hmem (i + 1) (by simp only [List.length_cons]; omega)
        rw [List.getD_cons_succ] at this
        rw [← this]
        congr 1
        omega
      · rw [← hterm]
        congr 1
        simp only [List.length_cons]
        omega

theorem strlen_deviceLayer (env : LogEnv) (stack : Mem) :
    strlen (GetModuleName env (writeByte stack 0 91) 1 env.kLogModule_DeviceLayer) 0
      kFormattedMsgSize = 3 := by
  have h : cString (GetModuleName env (writeByte stack 0 91) 1 env.kLogModule_DeviceLayer) 0
      kFormattedMsgSize = [91, 68, 76] := by
    apply cString_eq_of_stored
    · decide
    · decide
    · intro i hi
      simp only [List.length_cons, List.length_nil] at hi
      simp only [GetModuleName, if_true, writeBytes_apply]
      interval_cases i <;> simp [writeByte]
    · simp [GetModuleName, writeBytes_apply]
  rw [strlen, h]
  rfl

theorem LogBuffer_deviceLayer_apply (env : LogEnv) (stack : Mem) (text : List Nat)
    (i : Nat) (hi : i ≤ (kDeviceLayerPrefix ++ text.take 250).length) :
    LogBuffer env stack env.kLogModule_DeviceLayer text i =
      (kDeviceLayerPrefix ++ text.take 250 ++ [0]).getD i 0 := by
  have hsz : kFormattedMsgSize - (3 + 1 + 1) ≠ 0 := by decide
  simp only [LogBuffer, strlen_deviceLayer, vsnprintf, if_neg hsz, writeBytes_apply]
  have e1 : kFormattedMsgSize - (3 + 1 + 1) - 1 = 250 := by decide
  rw [e1]
  simp only [kDeviceLayerPrefix, List.length_append, List.length_cons, List.length_nil] at hi ⊢
  by_cases h5 : i < 5
  · have hn : ¬ (3 + 1 + 1 ≤ i ∧ i < 3 + 1 + 1 + ((List.take 250 text).length + (0 + 1))) := by
      omega
    rw [if_neg hn]
    simp only [GetModuleName, if_true]
    interval_cases i <;> simp [writeBytes, writeByte]
  · have hy : 3 + 1 + 1 ≤ i ∧ i < 3 + 1 + 1 + ((List.take 250 text).length + (0 + 1)) := by
      omega
    rw [if_pos hy]
    have e2 : i = (i - 5) + 5 := by omega
    rw [List.append_assoc]
    conv_rhs => rw [e2]
    simp

/-- C7: with `NRF_LOG_ENABLED`, a call of `Log` whose category is enabled has
exactly two effects, in this order: one message handed to the nRF logger and
one call of `OnLogOutput`; a call whose category is not enabled has none. -/
theorem Log_emits_once_then_notifies (env : LogEnv) (henabled : env.NRF_LOG_ENABLED = true)
    (stack : Mem) (module category : Nat) (text : List Nat) :
    (env.IsCategoryEnabled category = true →
      Log env stack module category text =
        [LogEvent.nrfLog (levelOfCategory env category)
            (cString (LogBuffer env stack module text) 0 kFormattedMsgSize),
          LogEvent.onLogOutput]) ∧
    (env.IsCategoryEnabled category = false →
      Log env stack module category text = []) := by
  constructor
  · intro h
    simp [Log, henabled, h]
  · intro h
    simp [Log, henabled, h]

/-- Instance with an enabled category (1) and a disabled one (3). -/
theorem Log_emits_once_then_notifies_witness :
    Log demoEnv (fun _ => 7) 4 1 [104, 105] =
        [LogEvent.nrfLog (levelOfCategory demoEnv 1)
            (cString (LogBuffer demoEnv (fun _ => 7) 4 [104, 105]) 0 kFormattedMsgSize),
          LogEvent.onLogOutput] ∧
    Log demoEnv (fun _ => 7) 4 3 [104, 105] = [] :=
  ⟨(Log_emits_once_then_notifies demoEnv rfl (fun _ => 7) 4 1 [104, 105]).1 rfl,
    (Log_emits_once_then_notifies demoEnv rfl (fun _ => 7) 4 3 [104, 105]).2 rfl⟩

/-- C8: with `NRF_LOG_ENABLED`, an enabled category and the device layer
module, the string handed to the nRF logger is the prefix `[DL] ` followed by
the first 250 bytes of the message text; it is the first 255 bytes of prefix
plus text, so it has at most 255 bytes and starts with the whole prefix. -/
theorem Log_deviceLayer_message (env : LogEnv) (henabled : env.NRF_LOG_ENABLED = true)
    (stack : Mem) (category : Nat) (hcat : env.IsCategoryEnabled category = true)
    (text : List Nat) (hnz : ∀ c ∈ text, c ≠ 0) :
    Log env stack env.kLogModule_DeviceLayer category text =
        [LogEvent.nrfLog (levelOfCategory env category)
            (kDeviceLayerPrefix ++ text.take 250),
          LogEvent.onLogOutput] ∧
    kDeviceLayerPrefix ++ text.take 250 = (kDeviceLayerPrefix ++ text).take 255 ∧
    (kDeviceLayerPrefix ++ text.take 250).length ≤ 255 ∧
    (kDeviceLayerPrefix ++ text.take 250).length + 1 ≤ kFormattedMsgSize := by
  have hlen : (kDeviceLayerPrefix ++ text.take 250).length ≤ 255 := by
    simp only [kDeviceLayerPrefix, List.length_append, List.length_cons, List.length_nil,
      List.length_take]
    omega
  have hstr : cString (LogBuffer env stack env.kLogModule_DeviceLayer text) 0
      kFormattedMsgSize = kDeviceLayerPrefix ++ text.take 250 := by
    apply cString_eq_of_stored
    · intro c hc
      rcases List.mem_append.mp hc with h | h
      · have hp : ∀ d ∈ kDeviceLayerPrefix, d ≠ 0 := by decide
        exact hp c h
      · exact hnz c (List.mem_of_mem_take h)
    · simp only [kFormattedMsgSize]
      omega
    · intro i hi
      rw [Nat.zero_add, LogBuffer_deviceLayer_apply env stack text i (Nat.le_of_lt hi),
        List.getD_append _ _ _ _ hi]
    · rw [Nat.zero_add, LogBuffer_deviceLayer_apply env stack text _ (Nat.le_refl _),
        List.getD_append_right _ _ _ _ (Nat.le_refl _), Nat.sub_self]
      rfl
  refine ⟨?_, ?_, hlen, ?_⟩
  · simp [Log, henabled, hcat, hstr]
  · simp [kDeviceLayerPrefix, List.take_append_eq_append_take]
  · simp only [kFormattedMsgSize]
    omega

/-- Instance for the two-byte message `hi`. -/
theorem Log_deviceLayer_message_witness :
    Log demoEnv (fun _ => 7) demoEnv.kLogModule_DeviceLayer 1 [104, 105] =
        [LogEvent.nrfLog (levelOfCategory demoEnv 1)
            (kDeviceLayerPrefix ++ [104, 105].take 250),
          LogEvent.onLogOutput] ∧
    kDeviceLayerPrefix ++ [104, 105].take 250 = (kDeviceLayerPrefix ++ [104, 105]).take 255 ∧
    (kDeviceLayerPrefix ++ [104, 105].take 250).length ≤ 255 ∧
    (kDeviceLayerPrefix ++ [104, 105].take 250).length + 1 ≤ kFormattedMsgSize :=
  Log_deviceLayer_message demoEnv rfl (fun _ => 7) 1 rfl [104, 105] (by decide)

/-! ### LwIPLog -/

theorem trimLoop_spec (n : Nat) :
    ∀ (s : List Nat) (mem : Mem) (reads writes : List Nat), s.length = n →
      (∀ i, i < s.length → mem i = s.getD i 0) → mem s.length = 0 →
      (∀ i, i < (s.rdropWhile isspace).length →
        (trimLoop mem reads writes n).mem i = (s.rdropWhile isspace).getD i 0) ∧
      (trimLoop mem reads writes n).mem (s.rdropWhile isspace).length = 0 ∧
      ∃ rs ws, (trimLoop mem reads writes n).reads = reads ++ rs ∧
        (trimLoop mem reads writes n).writes = writes ++ ws ∧
        (∀ j ∈ rs, j < n) ∧ (∀ j ∈ ws, j < n) := by
  induction n with
  | zero =>
    intro s mem reads writes hlen hmem hterm
    have hs : s = [] := List.length_eq_zero.mp hlen
    subst hs
    refine ⟨?_, ?_, [], [], ?_, ?_, ?_, ?_⟩ <;> simp_all [trimLoop, List.rdropWhile]
  | succ n ih =>
    intro s mem reads writes hlen hmem hterm
    have hne : s ≠ [] := by
      intro h
      rw [h] at hlen
      simp at hlen
    obtain ⟨s1, c, rfl⟩ : ∃ s1 c, s = s1 ++ [c] :=
      ⟨s.dropLast, s.getLast hne, (List.dropLast_append_getLast hne).symm⟩
    have hlen1 : s1.length = n := by
      simp only [List.length_append, List.length_cons, List.length_nil] at hlen
      omega
    have hc : mem n = c := by
      have h := hmem n (by simp [hlen1])
      rw [h, List.getD_append_right _ _ _ _ (by omega), hlen1, Nat.sub_self]
      rfl
    rw [trimLoop, hc]
    by_cases hsp : isspace c = true
    · rw [if_pos hsp, List.rdropWhile_concat_pos _ _ _ hsp]
      have hmem1 : ∀ i, i < s1.length → writeByte mem n 0 i = s1.getD i 0 := by
        intro i hi
        have h := hmem i (by simp only [List.length_append]; omega)
        rw [List.getD_append _ _ _ _ hi] at h
        have hin : i ≠ n := by omega
        simp [writeByte, hin, h]
      have hterm1 : writeByte mem n 0 s1.length = 0 := by
        simp [writeByte, hlen1]
      obtain ⟨h1, h2, rs, ws, h3, h4, h5, h6⟩ :=
        ih s1 (writeByte mem n 0) (reads ++ [n]) (writes ++ [n]) hlen1 hmem1 hterm1
      refine ⟨h1, h2, n :: rs, n :: ws, ?_, ?_, ?_, ?_⟩
      · rw [h3]; simp
      · rw [h4]; simp
      · intro j hj
        rcases List.mem_cons.mp hj with h | h
        · omega
        · have := h5 j h
          omega
      · intro j hj
        rcases List.mem_cons.mp hj with h | h
        · omega
        · have := h6 j h
          omega
    · rw [if_neg hsp, List.rdropWhile_concat_neg _ _ _ hsp]
      refine ⟨hmem, hterm, [n], [], ?_, ?_, ?_, ?_⟩ <;> simp

/-- For a message whose expansion has at most 255 non-zero bytes, the trimming
loop of `LwIPLog` stays inside `formattedMsg` and the string logged is the
message without its trailing whitespace. -/
theorem LwIPLog_short_message (env : LogEnv) (henabled : env.NRF_LOG_ENABLED = true)
    (stack : Mem) (text : List Nat) (hlen : text.length ≤ 255)
    (hnz : ∀ c ∈ text, c ≠ 0) :
    (∀ j ∈ (LwIPLog env stack text).reads, j < kFormattedMsgSize) ∧
    (∀ j ∈ (LwIPLog env stack text).writes, j < kFormattedMsgSize) ∧
    (LwIPLog env stack text).events =
      [LogEvent.nrfLog NrfLevel.debug (text.rdropWhile isspace), LogEvent.onLogOutput] := by
  have hsz : kFormattedMsgSize ≠ 0 := by decide
  have htake : text.take (kFormattedMsgSize - 1) = text :=
    List.take_of_length_le (by simp only [kFormattedMsgSize]; omega)
  have hmem : ∀ i, i < text.length →
      writeBytes stack 0 (text ++ [0]) i = text.getD i 0 := by
    intro i hi
    rw [writeBytes_apply, if_pos (by simp only [List.length_append]; omega), Nat.sub_zero,
      List.getD_append _ _ _ _ hi]
  have hterm : writeBytes stack 0 (text ++ [0]) text.length = 0 := by
    rw [writeBytes_apply, if_pos (by simp), Nat.sub_zero,
      List.getD_append_right _ _ _ _ (Nat.le_refl _), Nat.sub_self]
    rfl
  obtain ⟨h1, h2, rs, ws, h3, h4, h5, h6⟩ :=
    trimLoop_spec text.length text (writeBytes stack 0 (text ++ [0])) [] [] rfl hmem hterm
  have hstr : cString (trimLoop (writeBytes stack 0 (text ++ [0])) [] [] text.length).mem 0
      kFormattedMsgSize = text.rdropWhile isspace := by
    apply cString_eq_of_stored
    · intro c hc
      exact hnz c (( List.rdropWhile_prefix isspace text).subset hc)
    · have := ( List.rdropWhile_prefix isspace text).length_le
      simp only [kFormattedMsgSize]
      omega
    · intro i hi
      rw [Nat.zero_add]
      exact h1 i hi
    · rw [Nat.zero_add]
      exact h2
  simp only [LwIPLog, henabled, if_true, vsnprintf, if_neg hsz, htake]
  refine ⟨?_, ?_, ?_⟩
  · intro j hj
    rw [h3, List.nil_append] at hj
    have := h5 j hj
    simp only [kFormattedMsgSize]
    omega
  · intro j hj
    rw [h4, List.nil_append] at hj
    have := h6 j hj
    simp only [kFormattedMsgSize]
    omega
  · rw [hstr]

theorem trimLoop_reads_extend (n : Nat) :
    ∀ (mem : Mem) (reads writes : List Nat),
      ∃ rs, (trimLoop mem reads writes n).reads = reads ++ rs := by
  induction n with
  | zero => intro mem reads writes; exact ⟨[], by simp [trimLoop]⟩
  | succ n ih =>
    intro mem reads writes
    rw [trimLoop]
    by_cases hsp : isspace (mem n) = true
    · rw [if_pos hsp]
      obtain ⟨rs, hrs⟩ := ih (writeByte mem n 0) (reads ++ [n]) (writes ++ [n])
      exact ⟨n :: rs, by rw [hrs]; simp⟩
    · rw [if_neg hsp]
      exact ⟨[n], rfl⟩

/-- Whatever the length of the message, the first offset `LwIPLog` reads is
the length of the complete expansion minus one; for an expansion of more than
256 bytes that offset is outside `formattedMsg`. -/
theorem LwIPLog_first_read (env : LogEnv) (henabled : env.NRF_LOG_ENABLED = true)
    (stack : Mem) (text : List Nat) (hne : text ≠ []) :
    ∃ rs, (LwIPLog env stack text).reads = (text.length - 1) :: rs := by
  have hsz : kFormattedMsgSize ≠ 0 := by decide
  obtain ⟨n, hn⟩ : ∃ n, text.length = n + 1 :=
    ⟨text.length - 1, by have := List.length_pos.mpr hne; omega⟩
  simp only [LwIPLog, henabled, if_true, vsnprintf, if_neg hsz, hn, trimLoop,
    Nat.add_sub_cancel]
  split
  · obtain ⟨rs, hrs⟩ := trimLoop_reads_extend n
      (writeByte (writeBytes stack 0 (List.take (kFormattedMsgSize - 1) text ++ [0])) n 0)
      ([] ++ [n]) ([] ++ [n])
    exact ⟨rs, by rw [hrs]; rfl⟩
  · exact ⟨[], rfl⟩

set_option maxRecDepth 100000 in
/-- C10 at two failing inputs.  A message of 300 letters `a`, with spaces in
the memory behind the array: the loop reads offset 299 first and zeroes the
offsets 299 down to 256, all outside the 256-byte array.  A message of 256
spaces: 255 spaces are stored, the loop reads only the terminator at offset
255, and the 255 spaces are logged untrimmed. -/
theorem LwIPLog_long_message_escapes_buffer :
    ((LwIPLog demoEnv (fun _ => 32) (List.replicate 300 97)).reads =
        (List.range' 255 45).reverse ∧
      (LwIPLog demoEnv (fun _ => 32) (List.replicate 300 97)).writes =
        (List.range' 256 44).reverse ∧
      (LwIPLog demoEnv (fun _ => 32) (List.replicate 300 97)).stack 299 = 0 ∧
      ¬ (299 < kFormattedMsgSize)) ∧
    ((LwIPLog demoEnv (fun _ => 0) (List.replicate 256 32)).reads = [255] ∧
      (LwIPLog demoEnv (fun _ => 0) (List.replicate 256 32)).events =
        [LogEvent.nrfLog NrfLevel.debug (List.replicate 255 32), LogEvent.onLogOutput] ∧
      (List.replicate 255 32).rdropWhile isspace = []) := by
  decide!

end Logging

namespace NRF5Config

/-! ## Theorems: configuration store -/

theorem DoAsyncFDSOp_success (op : FDSAsyncOp) (fl fl1 : Flash)
    (h : DoAsyncFDSOp op fl = (none, fl1)) : fl1.records = applyOp op fl.records := by
  unfold DoAsyncFDSOp at h
  split at h
  · simp only [Prod.mk.injEq, true_and] at h
    rw [← h]
  · split at h
    · simp only [Prod.mk.injEq, true_and] at h
      rw [← h]
    · simp at h

theorem DoAsyncFDSOp_failure (op : FDSAsyncOp) (fl fl1 : Flash) (e : ConfigError)
    (h : DoAsyncFDSOp op fl = (some e, fl1)) : fl1.records = fl.records := by
  unfold DoAsyncFDSOp at h
  split at h
  · simp at h
  · split at h
    · simp at h
    · simp only [Prod.mk.injEq] at h
      rw [← h.2]

theorem writeWithRetry_success (op : FDSAsyncOp) (fl fl1 : Flash)
    (h : writeWithRetry op fl = (none, fl1)) : fl1.records = applyOp op fl.records := by
  unfold writeWithRetry at h
  split at h
  · rename_i fa hfa
    have ha := DoAsyncFDSOp_failure _ _ _ _ hfa
    split at h
    · simp at h
    · rename_i fb hfb
      have hb := DoAsyncFDSOp_success _ _ _ hfb
      have hc := DoAsyncFDSOp_success _ _ _ h
      rw [hc, hb, applyOp, ha]
  · exact DoAsyncFDSOp_success _ _ _ h

theorem forEachFrom_count (fileId recordKey : Nat) (rest : List FlashRecord) :
    ∀ (pos : Nat) (fl : Flash) (n : Nat),
      forEachFrom fileId recordKey countVisitor rest pos fl n =
        (none, n + (rest.filter (recordMatches fileId recordKey)).length, fl) := by
  induction rest with
  | nil => intro pos fl n; simp [forEachFrom]
  | cons r rest ih =>
    intro pos fl n
    by_cases hm : recordMatches fileId recordKey r = true
    · simp only [forEachFrom, hm, if_true, countVisitor, ih, List.filter_cons_of_pos hm,
        List.length_cons]
      simp only [Prod.mk.injEq, true_and, and_true]
      omega
    · simp only [forEachFrom, hm, ih, List.filter_cons_of_neg hm]
      simp

theorem forEachFrom_keepFirst (fileId recordKey : Nat) (rest : List FlashRecord) :
    ∀ (pre : List FlashRecord) (comps : List FdsResult) (n n1 : Nat) (fl1 : Flash),
      forEachFrom fileId recordKey keepFirstVisitor rest pre.length ⟨pre ++ rest, comps⟩ n =
        (none, n1, fl1) →
      fl1.records.filter (recordMatches fileId recordKey) =
        pre.filter (recordMatches fileId recordKey) ++
          (if 1 ≤ n then [] else (rest.filter (recordMatches fileId recordKey)).take 1) := by
  induction rest with
  | nil =>
    intro pre comps n n1 fl1 h
    simp only [forEachFrom, Prod.mk.injEq, true_and] at h
    rw [← h.2]
    simp
  | cons r rest ih =>
    intro pre comps n n1 fl1 h
    by_cases hm : recordMatches fileId recordKey r = true
    · by_cases hn : 1 ≤ n
      · simp only [forEachFrom, hm, if_true, keepFirstVisitor, hn, decide_True] at h
        split at h
        · simp at h
        · rename_i fl2 hdel
          have hrec := DoAsyncFDSOp_success _ _ _ hdel
          simp only [applyOp] at hrec
          have herase : (pre ++ r :: rest).eraseIdx pre.length = pre ++ rest := by
            rw [List.eraseIdx_append_of_length_le (Nat.le_refl _), Nat.sub_self]
            rfl
          rw [herase] at hrec
          have hfl2 : fl2 = ⟨pre ++ rest, fl2.completions⟩ := by
            cases fl2
            simp only [Flash.mk.injEq, and_true]
            exact hrec
          rw [hfl2] at h
          have := ih pre fl2.completions (n + 1) n1 fl1 h
          rw [this]
          simp [hn]
      · simp only [forEachFrom, hm, if_true, keepFirstVisitor, hn, decide_False] at h
        have e1 : pre.length + 1 = (pre ++ [r]).length := by simp
        have e2 : pre ++ r :: rest = (pre ++ [r]) ++ rest := by simp
        rw [e1, e2] at h
        have := ih (pre ++ [r]) comps (n + 1) n1 fl1 h
        rw [this]
        simp [hn, hm, List.filter_cons_of_pos]
    · simp only [forEachFrom, hm] at h
      have e1 : pre.length + 1 = (pre ++ [r]).length := by simp
      have e2 : pre ++ r :: rest = (pre ++ [r]) ++ rest := by simp
      rw [e1, e2] at h
      have := ih (pre ++ [r]) comps n n1 fl1 h
      rw [this]
      simp [hm, List.filter_cons_of_neg]

theorem findRecord_none (fileId recordKey : Nat) (recs : List FlashRecord)
    (h : findRecord fileId recordKey recs = none) :
    recs.filter (recordMatches fileId recordKey) = [] := by
  induction recs with
  | nil => rfl
  | cons r rs ih =>
    by_cases hm : recordMatches fileId recordKey r = true
    · simp [findRecord, hm] at h
    · simp only [findRecord, hm, Option.map_eq_none'] at h
      rw [List.filter_cons_of_neg hm]
      exact ih (by simpa using h)

theorem findRecord_some (fileId recordKey : Nat) (recs : List FlashRecord) :
    ∀ (i : Nat) (r : FlashRecord), findRecord fileId recordKey recs = some (i, r) →
      recordMatches fileId recordKey r = true ∧
      (∃ tl, recs.filter (recordMatches fileId recordKey) = r :: tl ∧
        ∀ d, (updateAt i d recs).filter (recordMatches fileId recordKey) =
          { r with data := d } :: tl) := by
  induction recs with
  | nil => intro i r h; simp [findRecord] at h
  | cons x xs ih =>
    intro i r h
    by_cases hm : recordMatches fileId recordKey x = true
    · simp only [findRecord, hm, if_true, Option.some.injEq, Prod.mk.injEq] at h
      obtain ⟨hi, hx⟩ := h
      subst hi hx
      refine ⟨hm, xs.filter (recordMatches fileId recordKey), List.filter_cons_of_pos hm, ?_⟩
      intro d
      have hm2 : recordMatches fileId recordKey { x with data := d } = true := by
        simpa [recordMatches] using hm
      rw [updateAt, List.filter_cons_of_pos hm2]
    · rw [findRecord, if_neg hm] at h
      cases hfx : findRecord fileId recordKey xs with
      | none => rw [hfx] at h; simp at h
      | some p =>
        rw [hfx] at h
        simp only [Option.map_some', Option.some.injEq, Prod.mk.injEq] at h
        obtain ⟨hi, hy⟩ := h
        obtain ⟨h1, tl, h2, h3⟩ := ih p.1 p.2 hfx
        rw [hy] at h1 h2 h3
        refine ⟨h1, tl, ?_, ?_⟩
        · rw [List.filter_cons_of_neg hm, h2]
        · intro d
          rw [← hi, updateAt, List.filter_cons_of_neg hm, h3]

theorem recordMatches_self (fileId recordKey : Nat) (d : List Nat) :
    recordMatches fileId recordKey ⟨fileId, recordKey, d⟩ = true := by
  simp [recordMatches]

theorem eq_of_recordMatches (fileId recordKey : Nat) (r : FlashRecord) (d : List Nat)
    (h : recordMatches fileId recordKey r = true) :
    { r with data := d } = ⟨fileId, recordKey, d⟩ := by
  simp only [recordMatches, Bool.and_eq_true, beq_iff_eq] at h
  rw [← h.1, ← h.2]

/-- A write that reports success leaves exactly one record under the key, and
that record holds the payload. -/
theorem WriteRecord_success (key : Nat) (payload : List Nat) (fl fl1 : Flash)
    (h : WriteRecord key payload fl = (none, fl1)) :
    fl1.records.filter (recordMatches (GetFileId key) (GetRecordKey key)) =
      [⟨GetFileId key, GetRecordKey key, payload⟩] := by
  unfold WriteRecord ForEachRecord at h
  rw [forEachFrom_count, Nat.zero_add] at h
  cases hc : (fl.records.filter (recordMatches (GetFileId key) (GetRecordKey key))).length with
  | zero =>
    rw [hc] at h
    simp only at h
    rw [writeWithRetry_success _ _ _ h, applyOp, List.filter_append,
      List.length_eq_zero.mp hc]
    simp [recordMatches_self]
  | succ c =>
    rw [hc] at h
    simp only at h
    unfold OpenRecord at h
    cases hf : findRecord (GetFileId key) (GetRecordKey key) fl.records with
    | none =>
      rw [hf] at h
      simp at h
    | some p =>
      obtain ⟨i, r⟩ := p
      rw [hf] at h
      simp only at h
      obtain ⟨hm, tl, htl, hupd⟩ := findRecord_some _ _ _ _ _ hf
      split at h
      · simp at h
      · rename_i fl2 hw
        have h2 := writeWithRetry_success _ _ _ hw
        simp only [applyOp] at h2
        have hfilt := hupd payload
        rw [← h2, eq_of_recordMatches _ _ _ _ hm] at hfilt
        split at h
        · rename_i hc0
          simp only [Prod.mk.injEq, true_and] at h
          rw [← h, hfilt]
          rw [htl, List.length_cons, hc0] at hc
          have : tl = [] := List.length_eq_zero.mp (by omega)
          rw [this]
        · rcases hfe : forEachFrom (GetFileId key) (GetRecordKey key) keepFirstVisitor
              fl2.records 0 fl2 0 with ⟨res, n3, fl3⟩
          rw [hfe] at h
          simp only [Prod.mk.injEq] at h
          obtain ⟨hres, hfl⟩ := h
          subst hres hfl
          have hfl2 : fl2 = ⟨[] ++ fl2.records, fl2.completions⟩ := by
            cases fl2
            rfl
          have hfe2 : forEachFrom (GetFileId key) (GetRecordKey key) keepFirstVisitor
              fl2.records ([] : List FlashRecord).length ⟨[] ++ fl2.records, fl2.completions⟩ 0 =
              (none, n3, fl3) := by
            rw [← hfl2]
            exact hfe
          have := forEachFrom_keepFirst _ _ _ _ _ _ _ _ hfe2
          rw [this, hfilt]
          simp

theorem u32Codec_lossless (n : Nat) (hn : n < 2 ^ 32) :
    u32Codec.decode (storedBytes (u32Codec.encode n)) = some n := by
  simp only [u32Codec, storedBytes, leBytes, FDSWords, kFDSWordSize, List.length_cons,
    List.length_nil]
  simp only [List.replicate, List.cons_append, List.nil_append, Nat.reduceAdd, Nat.reduceSub,
    Nat.reducePow, Nat.reduceMod, Nat.reduceDiv, Nat.reduceMul, List.take_succ_cons,
    List.take_zero, List.length_cons, List.length_nil, if_true, ofLeBytes, Option.some.injEq]
  omega

theorem u64Codec_lossless (n : Nat) (hn : n < 2 ^ 64) :
    u64Codec.decode (storedBytes (u64Codec.encode n)) = some n := by
  simp only [u64Codec, storedBytes, leBytes, FDSWords, kFDSWordSize, List.length_cons,
    List.length_nil]
  simp only [List.replicate, List.cons_append, List.nil_append, Nat.reduceAdd, Nat.reduceSub,
    Nat.reducePow, Nat.reduceMod, Nat.reduceDiv, Nat.reduceMul, List.take_succ_cons,
    List.take_zero, List.length_cons, List.length_nil, if_true, ofLeBytes, Option.some.injEq]
  omega

theorem boolCodec_lossless (b : Bool) :
    boolCodec.decode (storedBytes (boolCodec.encode b)) = some b := by
  cases b <;> decide

/-- One successful write: one record under the key, and a read gives the value
back when the codec decodes what it stores. -/
theorem write_then_read {α : Type} (codec : Codec α) (key : Nat) (v : α) (fl fl1 : Flash)
    (hw : WriteConfigValue codec key v fl = (none, fl1))
    (hcodec : codec.decode (storedBytes (codec.encode v)) = some v) :
    recordCount key fl1 = 1 ∧ ReadConfigValue codec key fl1 = Except.ok v := by
  have hfilt := WriteRecord_success key _ fl fl1 hw
  constructor
  · rw [recordCount, hfilt]
    rfl
  · unfold ReadConfigValue OpenRecord
    cases hf : findRecord (GetFileId key) (GetRecordKey key) fl1.records with
    | none =>
      have := findRecord_none _ _ _ hf
      rw [hfilt] at this
      simp at this
    | some p =>
      obtain ⟨i, r⟩ := p
      obtain ⟨_, tl, htl, _⟩ := findRecord_some _ _ _ _ _ hf
      rw [hfilt] at htl
      simp only [List.cons.injEq] at htl
      simp only [← htl.1, hcodec]

/-- C6: when `WriteConfigValue(k, v1)` and then `WriteConfigValue(k, v2)` both
report success, exactly one physical record is stored under
`(GetFileId k, GetRecordKey k)` and `ReadConfigValue(k)` returns `v2`; for
`bool`, `uint32_t` and `uint64_t` values. -/
theorem write_twice_converges (key : Nat) (fl fl1 fl2 : Flash) :
    (∀ v1 v2 : Bool,
      WriteConfigValue boolCodec key v1 fl = (none, fl1) →
      WriteConfigValue boolCodec key v2 fl1 = (none, fl2) →
      recordCount key fl2 = 1 ∧ ReadConfigValue boolCodec key fl2 = Except.ok v2) ∧
    (∀ v1 v2 : Nat, v1 < 2 ^ 32 → v2 < 2 ^ 32 →
      WriteConfigValue u32Codec key v1 fl = (none, fl1) →
      WriteConfigValue u32Codec key v2 fl1 = (none, fl2) →
      recordCount key fl2 = 1 ∧ ReadConfigValue u32Codec key fl2 = Except.ok v2) ∧
    (∀ v1 v2 : Nat, v1 < 2 ^ 64 → v2 < 2 ^ 64 →
      WriteConfigValue u64Codec key v1 fl = (none, fl1) →
      WriteConfigValue u64Codec key v2 fl1 = (none, fl2) →
      recordCount key fl2 = 1 ∧ ReadConfigValue u64Codec key fl2 = Except.ok v2) := by
  refine ⟨?_, ?_, ?_⟩
  · intro v1 v2 _ h2
    exact write_then_read boolCodec key v2 fl1 fl2 h2 (boolCodec_lossless v2)
  · intro v1 v2 _ hv2 _ h2
    exact write_then_read u32Codec key v2 fl1 fl2 h2 (u32Codec_lossless v2 hv2)
  · intro v1 v2 _ hv2 _ h2
    exact write_then_read u64Codec key v2 fl1 fl2 h2 (u64Codec_lossless v2 hv2)

/-- Instance for two `uint32_t` writes, 5 then 7, on a flash that starts with
two stale records under the key and answers the first request with
out-of-space. -/
theorem write_twice_converges_witness :
    recordCount kConfigKey_FabricId
        ⟨[⟨0x235B, 7, [7, 0, 0, 0]⟩, ⟨0x235A, 1, [9, 0, 0, 0]⟩], []⟩ = 1 ∧
      ReadConfigValue u32Codec kConfigKey_FabricId
        ⟨[⟨0x235B, 7, [7, 0, 0, 0]⟩, ⟨0x235A, 1, [9, 0, 0, 0]⟩], []⟩ = Except.ok 7 :=
  (write_twice_converges kConfigKey_FabricId
      ⟨[⟨0x235B, 7, [1, 0, 0, 0]⟩, ⟨0x235A, 1, [9, 0, 0, 0]⟩, ⟨0x235B, 7, [2, 0, 0, 0]⟩],
        [FdsResult.noSpace]⟩
      ⟨[⟨0x235B, 7, [5, 0, 0, 0]⟩, ⟨0x235A, 1, [9, 0, 0, 0]⟩], []⟩
      ⟨[⟨0x235B, 7, [7, 0, 0, 0]⟩, ⟨0x235A, 1, [9, 0, 0, 0]⟩], []⟩).2.1
    5 7 (by decide) (by decide) (by decide) (by decide)

end NRF5Config
